import Mathlib

/-!
# Multi-quota HTTP rate limiting: `httplimit/quota-limiter.go`

A shallow embedding of `QuotaLimiter` (store creation, the per-quota key
wrapper, the sort-and-wrap composition of `NewMiddleware`, and `Cleanup`),
followed by the properties of the composition that the specification states.

Conventions of the embedding

* Go `error` is `Option Error` (`nil` is `none`); a Go function returning
  `(string, error)` returns a pair.
* `log.Fatalf` ends the process: the functions that can reach it return
  `Except Error _`, the error being the fatal message.
* `uint64` token counts are `Nat`, `time.Duration` (an `int64`) is `Int`; the
  file only compares durations, so no wrap-around is involved.
* A `limiter.Store` interface value is a reference (`Nat`) into `World.heap`;
  `*QuotaLimiter` is passed explicitly as state.
* `http.Handler` values are defunctionalised: `Handler.limited m next` is the
  closure returned by `m.Handle(next)`, and `Handler.ServeHTTP` runs it.
-/

namespace httplimit

/-! ## Data model -/

/-- Go `error` values are represented by their message. -/
abbrev Error := String

/-- The fields of `*http.Request` that a key function may inspect. -/
structure Request where
  Method : String
  Path : String
  RemoteAddr : String
deriving DecidableEq, Repr

/-- Key functions, `func(r *http.Request) (string, error)`, as used at
quota-limiter.go:86. -/
abbrev KeyFunc := Request → String × Option Error

/-- Quota definition, quota-limiter.go:21-25. -/
structure Quota where
  Name : String
  Tokens : Nat
  Interval : Int
deriving DecidableEq, Repr

/-- Which constructor built a store: `memorystore.New` or `redisstore.New`
(with the connection string its `Dial` closure uses). -/
inductive Backend where
  | memory
  | redis (connStr : String)
deriving DecidableEq, Repr

/-- Modelled from the spec: the per-key counter state of a store (section 3,
"Bucket"); the store packages are not part of the source listing. -/
structure Bucket where
  remaining : Nat
  resetAt : Int
deriving DecidableEq, Repr

/-- Modelled from the spec: a `limiter.Store` (section 3 and 4.1), the counters
of exactly one quota, built from `Tokens` and `Interval`; the interface and its
two implementations are not part of the source listing. -/
structure Store where
  backend : Backend
  Tokens : Nat
  Interval : Int
  buckets : List (String × Bucket)
  closed : Bool
deriving DecidableEq, Repr

/-- Modelled from the spec: what `Store.Take` returns (section 4.1). -/
structure TakeResult where
  allowed : Bool
  remaining : Nat
  limit : Nat
  resetAt : Int
  err : Option Error
deriving DecidableEq, Repr

/-- Observable actions, recorded in order in `World.trace`. -/
inductive Event where
  | take (store : Nat) (key : String)
  | close (store : Nat)
  | keyError (err : Error)
  | storeError (store : Nat) (err : Error)
  | rateLimited (store : Nat) (limit remaining : Nat) (resetAt : Int)
  | served (r : Request)
deriving DecidableEq, Repr

/-- Everything outside the limiter: the clock, the environment-decided
outcomes (store constructors, `Close`, reachability of the shared backend),
the allocated stores and the record of actions so far. -/
structure World where
  now : Int
  redisUp : Bool
  newErr : Backend → Nat → Int → Option Error
  closeErr : Nat → Option Error
  heap : List Store
  trace : List Event

/-- Limiter state, quota-limiter.go:16-19. -/
structure QuotaLimiter where
  stores : List Nat
  redisConnStr : Option String
deriving DecidableEq, Repr

/-! ## Stores (modelled from the spec) -/

/-- Modelled from the spec: the bucket `Take` acts on (section 4.1): "if no
bucket exists for key, or the existing bucket's window has expired, a fresh
bucket with full capacity is created/reset first"; the store packages are not
part of the source listing. -/
def Store.bucket (s : Store) (now : Int) (key : String) : Bucket :=
  match s.buckets.lookup key with
  | some b => if b.resetAt < now then ⟨s.Tokens, now + s.Interval⟩ else b
  | none => ⟨s.Tokens, now + s.Interval⟩

/-- Replace the bucket stored for `key`. -/
def Store.setBucket (s : Store) (key : String) (b : Bucket) : Store :=
  { s with buckets := (key, b) :: s.buckets.filter (fun kb => kb.1 != key) }

/-- Modelled from the spec: `Store.Take` on the store's own state (section 4.1):
consume one unit for `key`, or report `allowed = false` and `remaining = 0`
once the window's capacity is used up; the store packages are not part of the
source listing. -/
def Store.Take (s : Store) (now : Int) (key : String) : TakeResult × Store :=
  let b := s.bucket now key
  if b.remaining = 0 then
    (⟨false, 0, s.Tokens, b.resetAt, none⟩, s.setBucket key b)
  else
    (⟨true, b.remaining - 1, s.Tokens, b.resetAt, none⟩,
      s.setBucket key { b with remaining := b.remaining - 1 })

/-- Modelled from the spec: `Store.Peek` (section 4.1), the remaining count for
`key` without consuming a unit. -/
def Store.Peek (s : Store) (now : Int) (key : String) : Nat :=
  (s.bucket now key).remaining

/-- Modelled from the spec: whether a call on the store fails for lack of its
backend (section 4.3: "network/backend unavailability must be surfaced as an
error from Take"); only the shared backend can be unreachable. -/
def Store.unreachable (s : Store) (redisUp : Bool) : Bool :=
  match s.backend with
  | .memory => false
  | .redis _ => !redisUp

/-- Modelled from the spec: the interface call `store.Take(ctx, key)` on a
store reference. The call is recorded; a backend error leaves the counters
untouched. -/
def World.Take (w : World) (store : Nat) (key : String) : TakeResult × World :=
  let w1 := { w with trace := w.trace ++ [Event.take store key] }
  match w.heap.get? store with
  | none => (⟨false, 0, 0, 0, some "nil store"⟩, w1)
  | some s =>
    if s.unreachable w.redisUp then
      (⟨false, 0, s.Tokens, 0, some "backend unreachable"⟩, w1)
    else
      ((s.Take w.now key).1, { w1 with heap := w.heap.set store (s.Take w.now key).2 })

/-- Modelled from the spec: the interface call `store.Close(ctx)` (section 4.1):
releases the store and returns the error the environment decides. -/
def World.Close (w : World) (store : Nat) : Option Error × World :=
  (w.closeErr store,
    { w with
      trace := w.trace ++ [Event.close store]
      heap := match w.heap.get? store with
        | some s => w.heap.set store { s with closed := true }
        | none => w.heap })

/-- The remaining count a reference reports for `key` (`none` for a dangling
reference). -/
def World.Peek (w : World) (store : Nat) (key : String) : Option Nat :=
  (w.heap.get? store).map (fun s => s.Peek w.now key)

/-- Whether `store.Take(key)` would allow a request in world `w`. -/
def World.allows (w : World) (store : Nat) (key : String) : Bool :=
  (w.Take store key).1.err.isNone && (w.Take store key).1.allowed

/-- Modelled from the spec: the store constructors `memorystore.New` and
`redisstore.New` with `Tokens` and `Interval` from the config: a fresh store,
at a fresh reference, or the error the environment decides. -/
def World.newStore (w : World) (backend : Backend) (tokens : Nat) (interval : Int) :
    Except Error (Nat × World) :=
  match w.newErr backend tokens interval with
  | some err => .error err
  | none => .ok (w.heap.length,
      { w with heap := w.heap ++ [⟨backend, tokens, interval, [], false⟩] })

/-! ## Per-quota middleware (modelled from the spec) -/

/-- Modelled from the spec: `*Middleware`, a store together with a key
function; `httplimit/middleware.go` is not part of the source listing. -/
structure Middleware where
  store : Nat
  keyFunc : KeyFunc

/-- Modelled from the spec: package-level `NewMiddleware(store, keyFunc)`;
the spec names no failure for it. -/
def NewMiddleware (store : Nat) (f : KeyFunc) : Except Error Middleware :=
  .ok ⟨store, f⟩

/-- Handlers: a caller-supplied one, or the closure of `m.Handle(next)`. -/
inductive Handler where
  | func (f : Request → World → World)
  | limited (m : Middleware) (next : Handler)

/-- Modelled from the spec: `Middleware.Handle`, the "wrap a handler"
primitive. -/
def Middleware.Handle (m : Middleware) (next : Handler) : Handler :=
  Handler.limited m next

/-- Modelled from the spec: per-quota middleware behaviour (section 4.4 and 6):
derive the key, aborting on a key error before the store is touched; call
`Take`; invoke the next handler only when `Take` allows; otherwise reject. -/
def Handler.ServeHTTP : Handler → Request → World → World
  | .func f, r, w => f r w
  | .limited m next, r, w =>
    match m.keyFunc r with
    | (_, some err) => { w with trace := w.trace ++ [Event.keyError err] }
    | (key, none) =>
      let res := (w.Take m.store key).1
      let w1 := (w.Take m.store key).2
      match res.err with
      | some err => { w1 with trace := w1.trace ++ [Event.storeError m.store err] }
      | none =>
        if res.allowed then next.ServeHTTP r w1
        else { w1 with trace := w1.trace ++
          [Event.rateLimited m.store res.limit res.remaining res.resetAt] }

/-- The layers of a handler, outermost first, down to the caller-supplied
handler. -/
def Handler.layers : Handler → List Middleware
  | .func _ => []
  | .limited m next => m :: next.layers

/-! ## `sort.Slice` -/

/-- Inner loop of the insertion sort `sort.Slice` runs on short slices:
`for j := i; j > a && less(j, j-1); j-- { swap(j, j-1) }`. `left` is the
already sorted `data[a:i]`, nearest neighbour first; the result is `data[a:i+1]`
in the same right-to-left order. -/
def sinkLeft {α : Type} (less : α → α → Bool) (x : α) : List α → List α
  | [] => [x]
  | p :: left => if less x p then p :: sinkLeft less x left else x :: p :: left

/-- Model of `sort.Slice(data, less)`: insertion sort, which is what the Go
runtime executes for slices of at most 12 elements. For longer slices Go
switches to pattern-defeating quicksort; its result is the same whenever no two
elements compare equal (`sortSlice_unique`), and differs at most in the order
of equal elements otherwise. The facts about serving a request (`serve_stack`,
`runLayers_all`) are proved for every arrangement of the layers. -/
def sortSlice {α : Type} (less : α → α → Bool) (data : List α) : List α :=
  (data.foldl (fun left x => sinkLeft less x left) []).reverse

/-! ## `QuotaLimiter` -/

/-- Options, quota-limiter.go:27. -/
abbrev QuotaOption := QuotaLimiter → QuotaLimiter

/-- Option `WithRedisConnStr`, quota-limiter.go:29-33. -/
def WithRedisConnStr (connStr : String) : QuotaOption :=
  fun ql => { ql with redisConnStr := some connStr }

/-- Constructor `NewQuotaLimiter`, quota-limiter.go:35-41. -/
def NewQuotaLimiter (options : List QuotaOption) : QuotaLimiter :=
  options.foldl (fun ql opt => opt ql) ⟨[], none⟩

/-- Method `createStore`, quota-limiter.go:45-72. -/
def QuotaLimiter.createStore (ql : QuotaLimiter) (quota : Quota) (w : World) :
    Except Error (Nat × QuotaLimiter × World) :=
  match ql.redisConnStr with
  | some connStr =>
    match w.newStore (Backend.redis connStr) quota.Tokens quota.Interval with
    | .error err =>
      .error ("Error creating redis store for quota \x27" ++ quota.Name ++ "\x27: " ++ err)
    | .ok (store, w1) => .ok (store, { ql with stores := ql.stores ++ [store] }, w1)
  | none =>
    match w.newStore Backend.memory quota.Tokens quota.Interval with
    | .error err =>
      .error ("Error creating memory store for quota \x27" ++ quota.Name ++ "\x27: " ++ err)
    | .ok (store, w1) => .ok (store, { ql with stores := ql.stores ++ [store] }, w1)

/-- The pair type local to `NewMiddleware`, quota-limiter.go:77-80. -/
structure quotaMiddlewarePair where
  middleware : Middleware
  interval : Int

/-- The closure `keyWrapper`, quota-limiter.go:85-93. -/
def keyWrapper (keyFunc : KeyFunc) (qName : String) : KeyFunc :=
  fun r =>
    match keyFunc r with
    | (_, some err) => ("", some err)
    | (k, none) => (qName ++ k, none)

/-- First loop of `NewMiddleware`, quota-limiter.go:84-105: one store and one
middleware per quota, appended to `pairs` in list order. -/
def buildPairs (keyFunc : KeyFunc) :
    List Quota → List quotaMiddlewarePair → QuotaLimiter → World →
      Except Error (List quotaMiddlewarePair × QuotaLimiter × World)
  | [], pairs, ql, w => .ok (pairs, ql, w)
  | quota :: rest, pairs, ql, w =>
    match ql.createStore quota w with
    | .error err => .error err
    | .ok (store, ql1, w1) =>
      match httplimit.NewMiddleware store (keyWrapper keyFunc quota.Name) with
      | .error err =>
        .error ("Failed to create HTTP limiter middleware for quota \x27" ++ quota.Name
          ++ "\x27: " ++ err)
      | .ok mw => buildPairs keyFunc rest (pairs ++ [⟨mw, quota.Interval⟩]) ql1 w1

/-- The comparison given to `sort.Slice`, quota-limiter.go:107-109. -/
def pairLess (a b : quotaMiddlewarePair) : Bool :=
  decide (a.interval > b.interval)

/-- Second loop of `NewMiddleware`, quota-limiter.go:111-114. -/
def wrapAll (pairs : List quotaMiddlewarePair) (next : Handler) : Handler :=
  pairs.foldl (fun finalHandler pair => pair.middleware.Handle finalHandler) next

/-- The type `QuotaMiddleware`, quota-limiter.go:43; applying it runs
`createStore`, so it acts on the limiter and the world. -/
abbrev QuotaMiddleware :=
  Handler → QuotaLimiter → World → Except Error (Handler × QuotaLimiter × World)

/-- Method `NewMiddleware`, quota-limiter.go:74-118. -/
def QuotaLimiter.NewMiddleware (quotas : List Quota) (keyFunc : KeyFunc) : QuotaMiddleware :=
  fun next ql w =>
    match buildPairs keyFunc quotas [] ql w with
    | .error err => .error err
    | .ok (pairs, ql1, w1) => .ok (wrapAll (sortSlice pairLess pairs) next, ql1, w1)

/-- Method `Cleanup`, quota-limiter.go:120-124: the value `Close` returns is
dropped, and the method returns nothing. The context argument is only passed
on to `Close` and is left out. -/
def QuotaLimiter.Cleanup (ql : QuotaLimiter) (w : World) : Unit × World :=
  ((), ql.stores.foldl (fun w store => (w.Close store).2) w)

/-- Apply a `QuotaMiddleware` to each handler of a list in turn. -/
def applyEach (mw : QuotaMiddleware) :
    List Handler → QuotaLimiter → World → Except Error (List Handler × QuotaLimiter × World)
  | [], ql, w => .ok ([], ql, w)
  | next :: rest, ql, w =>
    match mw next ql w with
    | .error err => .error err
    | .ok (h, ql1, w1) =>
      match applyEach mw rest ql1 w1 with
      | .error err => .error err
      | .ok (hs, ql2, w2) => .ok (h :: hs, ql2, w2)

/-! ## Concrete inputs used by the examples -/

/-- A world with nothing allocated, in which no constructor fails. -/
def World.init : World :=
  ⟨0, true, fun _ _ _ => none, fun _ => none, [], []⟩

/-- A key function: the client address, never failing. -/
def byAddr : KeyFunc := fun r => (r.RemoteAddr, none)

/-- A key function that always fails. -/
def noKey : KeyFunc := fun _ => ("", some "no key")

/-- A protected handler that only records that it served the request. -/
def probe : Handler :=
  Handler.func (fun r w => { w with trace := w.trace ++ [Event.served r] })

/-- A request from the given client address. -/
def reqFrom (addr : String) : Request := ⟨"GET", "/", addr⟩

/-- The initial world, except that every `Close` returns an error. -/
def World.closeFails : World :=
  ⟨0, true, fun _ _ _ => none, fun _ => some "close failed", [], []⟩

/-- The duration `time.Second`, in nanoseconds. -/
def Second : Int := 1000000000

/-- Five requests per second. -/
def burstQuota : Quota := ⟨"burst", 5, Second⟩

/-- A thousand requests per day. -/
def dailyQuota : Quota := ⟨"daily", 1000, 86400 * Second⟩

/-- One request per hour. -/
def hourlyQuota : Quota := ⟨"hourly", 1, 3600 * Second⟩


/-! ## Reference descriptions used in the statements -/

/-- No store constructor fails in this world (so `log.Fatalf` is not reached). -/
def World.constructorsSucceed (w : World) : Prop :=
  ∀ b t i, w.newErr b t i = none

/-- The backend `createStore` selects, quota-limiter.go:49. -/
def QuotaLimiter.backend (ql : QuotaLimiter) : Backend :=
  match ql.redisConnStr with
  | some connStr => Backend.redis connStr
  | none => Backend.memory

/-- The store a constructor returns for a quota: full configuration, no
counters yet. -/
def freshStore (b : Backend) (q : Quota) : Store :=
  ⟨b, q.Tokens, q.Interval, [], false⟩

/-- The pairs the first loop appends when the next free reference is `base`. -/
def freshPairs (keyFunc : KeyFunc) : Nat → List Quota → List quotaMiddlewarePair
  | _, [] => []
  | base, q :: qs =>
    ⟨⟨base, keyWrapper keyFunc q.Name⟩, q.Interval⟩ :: freshPairs keyFunc (base + 1) qs

/-- A chain given by its layers, outermost first, around `next`. -/
def Handler.stack (layers : List Middleware) (next : Handler) : Handler :=
  layers.foldr (fun m h => Handler.limited m h) next

/-- The checks of a list of layers, outermost first, without any inner handler:
whether all of them let the request through, and the world afterwards. -/
def runLayers : List Middleware → Request → World → Bool × World
  | [], _, w => (true, w)
  | m :: rest, r, w =>
    match m.keyFunc r with
    | (_, some err) => (false, { w with trace := w.trace ++ [Event.keyError err] })
    | (key, none) =>
      let res := (w.Take m.store key).1
      let w1 := (w.Take m.store key).2
      match res.err with
      | some err => (false, { w1 with trace := w1.trace ++ [Event.storeError m.store err] })
      | none =>
        if res.allowed then runLayers rest r w1
        else (false, { w1 with trace := w1.trace ++
          [Event.rateLimited m.store res.limit res.remaining res.resetAt] })

/-- The interval each layer of a built chain enforces (that of the layer's
store), outermost first; empty when the build failed. -/
def chainIntervals (out : Except Error (Handler × QuotaLimiter × World)) : List Int :=
  match out with
  | .ok (h, _, w) => h.layers.filterMap (fun m => (w.heap.get? m.store).map (fun s => s.Interval))
  | .error _ => []

/-- Ascending by interval (the right-to-left view of a descending slice). -/
def ascending (l : List quotaMiddlewarePair) : Prop :=
  l.Pairwise (fun a b => a.interval ≤ b.interval)

/-- The layers `NewMiddleware` puts around `next`, outermost first, when the
next free store reference is `base`. -/
def newLayers (keyFunc : KeyFunc) (base : Nat) (quotas : List Quota) : List Middleware :=
  ((freshPairs keyFunc base quotas).foldl (fun left x => sinkLeft pairLess x left) []).map
    (fun p => p.middleware)

/-! ## Sorting lemmas -/

theorem sinkLeft_perm {α : Type} (less : α → α → Bool) (x : α) (left : List α) :
    (sinkLeft less x left).Perm (x :: left) := by
  induction left with
  | nil => simp [sinkLeft]
  | cons p left ih =>
    unfold sinkLeft
    split
    · exact (List.Perm.cons p ih).trans (List.Perm.swap x p left)
    · exact List.Perm.refl _

theorem foldl_sinkLeft_perm {α : Type} (less : α → α → Bool) (data acc : List α) :
    (data.foldl (fun left x => sinkLeft less x left) acc).Perm (data ++ acc) := by
  induction data generalizing acc with
  | nil => simp
  | cons x data ih =>
    simp only [List.foldl_cons]
    refine (ih _).trans ?_
    refine (List.Perm.append_left data (sinkLeft_perm less x acc)).trans ?_
    simp

theorem sortSlice_perm {α : Type} (less : α → α → Bool) (data : List α) :
    (sortSlice less data).Perm data := by
  unfold sortSlice
  refine (List.reverse_perm _).trans ?_
  simpa using foldl_sinkLeft_perm less data []

theorem sinkLeft_ascending (x : quotaMiddlewarePair) (left : List quotaMiddlewarePair)
    (h : ascending left) : ascending (sinkLeft pairLess x left) := by
  induction left with
  | nil => simp [sinkLeft, ascending]
  | cons p left ih =>
    unfold ascending at h ⊢
    rw [List.pairwise_cons] at h
    unfold sinkLeft
    split
    · rename_i hlt
      simp only [pairLess, gt_iff_lt, decide_eq_true_eq] at hlt
      rw [List.pairwise_cons]
      refine ⟨?_, ih h.2⟩
      intro b hb
      rcases List.mem_cons.1 ((sinkLeft_perm pairLess x left).mem_iff.1 hb) with hb | hb
      · subst hb
        exact le_of_lt hlt
      · exact h.1 b hb
    · rename_i hlt
      simp only [pairLess, gt_iff_lt, decide_eq_true_eq, not_lt] at hlt
      rw [List.pairwise_cons]
      refine ⟨?_, List.pairwise_cons.2 h⟩
      intro b hb
      rcases List.mem_cons.1 hb with hb | hb
      · subst hb; exact hlt
      · exact le_trans hlt (h.1 b hb)

theorem foldl_sinkLeft_ascending (data acc : List quotaMiddlewarePair) (h : ascending acc) :
    ascending (data.foldl (fun left x => sinkLeft pairLess x left) acc) := by
  induction data generalizing acc with
  | nil => simpa using h
  | cons x data ih => exact ih _ (sinkLeft_ascending x acc h)

/-- Any descending arrangement of the same pairs, when no two intervals are
equal, is the one `sortSlice` returns: the result of sorting does not depend on
the algorithm. -/
theorem sortSlice_unique (data out : List quotaMiddlewarePair) (hp : out.Perm data)
    (hs : out.Pairwise (fun a b => a.interval > b.interval)) :
    sortSlice pairLess data = out := by
  have hasc := foldl_sinkLeft_ascending data [] List.Pairwise.nil
  have hperm := sortSlice_perm pairLess data
  have hnd : (out.map (fun p => p.interval)).Nodup :=
    (List.pairwise_map.2 hs).imp (fun h => ne_of_gt h)
  have hnd2 : ((sortSlice pairLess data).map (fun p => p.interval)).Nodup :=
    ((hperm.trans hp.symm).map (fun p => p.interval)).nodup_iff.2 hnd
  have hdesc : (sortSlice pairLess data).Pairwise (fun a b => a.interval > b.interval) := by
    have h1 : (sortSlice pairLess data).Pairwise (fun a b => b.interval ≤ a.interval) := by
      unfold sortSlice
      exact List.pairwise_reverse.2 hasc
    have h2 : (sortSlice pairLess data).Pairwise (fun a b => a.interval ≠ b.interval) :=
      List.pairwise_map.1 hnd2
    exact (h1.and h2).imp (fun hab => lt_of_le_of_ne hab.1 (Ne.symm hab.2))
  have hanti : IsAntisymm quotaMiddlewarePair (fun a b => a.interval > b.interval) :=
    ⟨fun a b h1 h2 => absurd h1 (not_lt_of_gt h2)⟩
  exact List.eq_of_perm_of_sorted (hperm.trans hp.symm) hdesc hs

/-! ## The first loop -/

theorem createStore_ok (ql : QuotaLimiter) (q : Quota) (w : World)
    (hw : w.constructorsSucceed) :
    ql.createStore q w = .ok (w.heap.length,
      { ql with stores := ql.stores ++ [w.heap.length] },
      { w with heap := w.heap ++ [freshStore ql.backend q] }) := by
  unfold QuotaLimiter.createStore QuotaLimiter.backend World.newStore freshStore
  cases hc : ql.redisConnStr <;> simp [hw _ _ _]

theorem buildPairs_ok (keyFunc : KeyFunc) (quotas : List Quota)
    (pairs : List quotaMiddlewarePair) (ql : QuotaLimiter) (w : World)
    (hw : w.constructorsSucceed) :
    buildPairs keyFunc quotas pairs ql w = .ok
      (pairs ++ freshPairs keyFunc w.heap.length quotas,
        { ql with stores := ql.stores ++ List.range' w.heap.length quotas.length },
        { w with heap := w.heap ++ quotas.map (freshStore ql.backend) }) := by
  induction quotas generalizing pairs ql w with
  | nil => simp [buildPairs, freshPairs]
  | cons q qs ih =>
    unfold buildPairs
    rw [createStore_ok ql q w hw]
    simp only [httplimit.NewMiddleware]
    rw [ih]
    · simp [freshPairs, QuotaLimiter.backend, List.range'_succ]
    · exact hw

theorem freshPairs_length (keyFunc : KeyFunc) (base : Nat) (quotas : List Quota) :
    (freshPairs keyFunc base quotas).length = quotas.length := by
  induction quotas generalizing base with
  | nil => rfl
  | cons q qs ih => simp [freshPairs, ih]

theorem freshPairs_stores (keyFunc : KeyFunc) (base : Nat) (quotas : List Quota) :
    (freshPairs keyFunc base quotas).map (fun p => p.middleware.store)
      = List.range' base quotas.length := by
  induction quotas generalizing base with
  | nil => rfl
  | cons q qs ih => simp [freshPairs, ih, List.range'_succ]

/-- Each pair of the first loop belongs to the quota at the same position: it
carries that quota's interval and name, and its store was built from that
quota's `Tokens` and `Interval`. -/
theorem freshPairs_correspond (keyFunc : KeyFunc) (b : Backend) (heap : List Store)
    (quotas : List Quota) (tail : List Store) :
    List.Forall₂
      (fun q p => p.interval = q.Interval
        ∧ p.middleware.keyFunc = keyWrapper keyFunc q.Name
        ∧ (heap ++ quotas.map (freshStore b) ++ tail).get? p.middleware.store
            = some (freshStore b q))
      quotas (freshPairs keyFunc heap.length quotas) := by
  induction quotas generalizing heap with
  | nil => exact List.Forall₂.nil
  | cons q qs ih =>
    unfold freshPairs
    refine List.Forall₂.cons ⟨rfl, rfl, ?_⟩ ?_
    · rw [List.append_assoc, List.get?_eq_getElem?, List.getElem?_append_right (le_refl _)]
      simp
    · have := ih (heap ++ [freshStore b q])
      simpa using this

/-! ## The second loop -/

theorem wrapAll_eq_stack (pairs : List quotaMiddlewarePair) (next : Handler) :
    wrapAll pairs next = Handler.stack (pairs.reverse.map (fun p => p.middleware)) next := by
  unfold wrapAll Handler.stack
  induction pairs generalizing next with
  | nil => rfl
  | cons p ps ih =>
    simp only [List.foldl_cons, List.reverse_cons, List.map_append, List.map_cons, List.map_nil,
      List.foldr_append, List.foldr_cons, List.foldr_nil]
    rw [ih]
    rfl

theorem layers_stack (layers : List Middleware) (next : Handler) :
    (Handler.stack layers next).layers = layers ++ next.layers := by
  induction layers with
  | nil => rfl
  | cons m ms ih =>
    show (Handler.limited m (Handler.stack ms next)).layers = _
    simp [Handler.layers, ih]

theorem serve_limited (m : Middleware) (next : Handler) (r : Request) (w : World) :
    (Handler.limited m next).ServeHTTP r w =
      match m.keyFunc r with
      | (_, some err) => { w with trace := w.trace ++ [Event.keyError err] }
      | (key, none) =>
        match (w.Take m.store key).1.err with
        | some err =>
          { (w.Take m.store key).2 with
            trace := (w.Take m.store key).2.trace ++ [Event.storeError m.store err] }
        | none =>
          if (w.Take m.store key).1.allowed then next.ServeHTTP r (w.Take m.store key).2
          else { (w.Take m.store key).2 with
            trace := (w.Take m.store key).2.trace ++
              [Event.rateLimited m.store (w.Take m.store key).1.limit
                (w.Take m.store key).1.remaining (w.Take m.store key).1.resetAt] } := by
  rw [Handler.ServeHTTP]

theorem runLayers_cons (m : Middleware) (rest : List Middleware) (r : Request) (w : World) :
    runLayers (m :: rest) r w =
      match m.keyFunc r with
      | (_, some err) => (false, { w with trace := w.trace ++ [Event.keyError err] })
      | (key, none) =>
        match (w.Take m.store key).1.err with
        | some err =>
          (false, { (w.Take m.store key).2 with
            trace := (w.Take m.store key).2.trace ++ [Event.storeError m.store err] })
        | none =>
          if (w.Take m.store key).1.allowed then runLayers rest r (w.Take m.store key).2
          else (false, { (w.Take m.store key).2 with
            trace := (w.Take m.store key).2.trace ++
              [Event.rateLimited m.store (w.Take m.store key).1.limit
                (w.Take m.store key).1.remaining (w.Take m.store key).1.resetAt] }) := by
  rw [runLayers]

theorem serve_stack (layers : List Middleware) (next : Handler) (r : Request) (w : World) :
    (Handler.stack layers next).ServeHTTP r w =
      if (runLayers layers r w).1 then next.ServeHTTP r (runLayers layers r w).2
      else (runLayers layers r w).2 := by
  induction layers generalizing w with
  | nil => simp [Handler.stack, runLayers]
  | cons m ms ih =>
    show (Handler.limited m (Handler.stack ms next)).ServeHTTP r w = _
    rw [serve_limited, runLayers_cons]
    split
    · simp
    · split
      · simp
      · split
        · exact ih _
        · simp

theorem NewMiddleware_ok (quotas : List Quota) (keyFunc : KeyFunc) (next : Handler)
    (ql : QuotaLimiter) (w : World) (hw : w.constructorsSucceed) :
    QuotaLimiter.NewMiddleware quotas keyFunc next ql w = .ok
      (Handler.stack (newLayers keyFunc w.heap.length quotas) next,
        { ql with stores := ql.stores ++ List.range' w.heap.length quotas.length },
        { w with heap := w.heap ++ quotas.map (freshStore ql.backend) }) := by
  unfold QuotaLimiter.NewMiddleware
  rw [buildPairs_ok keyFunc quotas [] ql w hw]
  simp [wrapAll_eq_stack, sortSlice, newLayers]

/-! ## Frame properties of `Take` -/

theorem take_now (w : World) (a : Nat) (key : String) : (w.Take a key).2.now = w.now := by
  unfold World.Take
  split
  · rfl
  · split <;> rfl

theorem take_redisUp (w : World) (a : Nat) (key : String) :
    (w.Take a key).2.redisUp = w.redisUp := by
  unfold World.Take
  split
  · rfl
  · split <;> rfl

theorem take_trace (w : World) (a : Nat) (key : String) :
    (w.Take a key).2.trace = w.trace ++ [Event.take a key] := by
  unfold World.Take
  split
  · rfl
  · split <;> rfl

theorem take_heap_other (w : World) (a b : Nat) (key : String) (hab : a ≠ b) :
    (w.Take a key).2.heap.get? b = w.heap.get? b := by
  unfold World.Take
  split
  · rfl
  · split
    · rfl
    · simp [List.getElem?_set, hab]

theorem take_result_congr (w v : World) (b : Nat) (key : String)
    (hh : v.heap.get? b = w.heap.get? b) (hn : v.now = w.now) (hr : v.redisUp = w.redisUp) :
    (v.Take b key).1 = (w.Take b key).1 := by
  unfold World.Take
  rw [hh, hn, hr]
  split
  · rfl
  · split <;> rfl

theorem allows_take_other (w : World) (a b : Nat) (key key2 : String) (hab : a ≠ b) :
    (w.Take a key).2.allows b key2 = w.allows b key2 := by
  unfold World.allows
  rw [take_result_congr w (w.Take a key).2 b key2 (take_heap_other w a b key hab)
    (take_now w a key) (take_redisUp w a key)]

theorem all_congr_mem {α : Type} (l : List α) (f g : α → Bool) (h : ∀ x ∈ l, f x = g x) :
    l.all f = l.all g := by
  induction l with
  | nil => rfl
  | cons a l ih =>
    rw [List.all_cons, List.all_cons, h a (List.mem_cons_self _ _),
      ih (fun x hx => h x (List.mem_cons_of_mem _ hx))]

theorem runLayers_all (layers : List Middleware) (r : Request) (w : World)
    (hnd : (layers.map (fun m => m.store)).Nodup)
    (hk : ∀ m ∈ layers, (m.keyFunc r).2 = none) :
    (runLayers layers r w).1 = layers.all (fun m => w.allows m.store (m.keyFunc r).1) := by
  induction layers generalizing w with
  | nil => rfl
  | cons m ms ih =>
    rw [List.map_cons, List.nodup_cons] at hnd
    have hm := hk m (List.mem_cons_self _ _)
    have hms : ∀ x ∈ ms, (x.keyFunc r).2 = none := fun x hx => hk x (List.mem_cons_of_mem _ hx)
    rw [runLayers_cons, List.all_cons]
    rcases hkr : m.keyFunc r with ⟨key, err⟩
    rw [hkr] at hm
    simp only at hm
    subst hm
    simp only [World.allows]
    cases herr : (w.Take m.store key).1.err with
    | some e => simp
    | none =>
      simp only [Option.isNone_none, Bool.true_and]
      cases hal : (w.Take m.store key).1.allowed with
      | false => simp
      | true =>
        simp only [if_true, Bool.true_and]
        rw [ih _ hnd.2 hms]
        apply all_congr_mem
        intro x hx
        apply allows_take_other
        intro hEq
        exact hnd.1 (List.mem_map.2 ⟨x, hx, hEq.symm⟩)

theorem correspond_mem_right {α β : Type} {R : α → β → Prop} {l₁ : List α} {l₂ : List β}
    (h : List.Forall₂ R l₁ l₂) {b : β} (hb : b ∈ l₂) : ∃ a ∈ l₁, R a b := by
  induction h with
  | nil => cases hb
  | cons hab _ ih =>
    rcases List.mem_cons.1 hb with hb | hb
    · subst hb
      exact ⟨_, List.mem_cons_self _ _, hab⟩
    · obtain ⟨a, ha, hr⟩ := ih hb
      exact ⟨a, List.mem_cons_of_mem _ ha, hr⟩

theorem newLayers_perm (keyFunc : KeyFunc) (base : Nat) (quotas : List Quota) :
    (newLayers keyFunc base quotas).Perm
      ((freshPairs keyFunc base quotas).map (fun p => p.middleware)) := by
  unfold newLayers
  refine List.Perm.map _ ?_
  simpa using foldl_sinkLeft_perm pairLess (freshPairs keyFunc base quotas) []

theorem newLayers_stores_nodup (keyFunc : KeyFunc) (base : Nat) (quotas : List Quota) :
    ((newLayers keyFunc base quotas).map (fun m => m.store)).Nodup := by
  have hp := (newLayers_perm keyFunc base quotas).map (fun m => m.store)
  rw [List.map_map] at hp
  have he : (fun m => m.store) ∘ (fun p : quotaMiddlewarePair => p.middleware)
      = fun p => p.middleware.store := rfl
  rw [he, freshPairs_stores] at hp
  exact hp.nodup_iff.2 (List.nodup_range' _ _)

theorem freshPairs_intervals (keyFunc : KeyFunc) (base : Nat) (quotas : List Quota) :
    (freshPairs keyFunc base quotas).map (fun p => p.interval)
      = quotas.map (fun q => q.Interval) := by
  induction quotas generalizing base with
  | nil => rfl
  | cons q qs ih => simp [freshPairs, ih]

theorem init_constructorsSucceed : World.init.constructorsSucceed :=
  fun _ _ _ => rfl

theorem filterMap_of_map_some {α β : Type} (f : α → Option β) (l : List α) (out : List β)
    (h : l.map f = out.map some) : l.filterMap f = out := by
  induction l generalizing out with
  | nil =>
    cases out with
    | nil => rfl
    | cons b bs => cases h
  | cons a l ih =>
    cases out with
    | nil => cases h
    | cons b bs =>
      simp only [List.map_cons, List.cons.injEq] at h
      rw [List.filterMap_cons, h.1, ih bs h.2]

/-! ## C1: order of the layers -/

/-- C1 (amended): for quotas with pairwise distinct intervals, the chain built
by `NewMiddleware` has exactly one layer per quota around `next`, and the
layers, read from outermost to innermost, are in strictly ascending order of
interval: the outermost layer is the shortest-interval quota and the layer
that directly wraps `next` is the longest-interval quota. -/
theorem C1_layers_ascending_by_interval (quotas : List Quota) (keyFunc : KeyFunc)
    (next : Handler) (ql : QuotaLimiter) (w : World)
    (hd : (quotas.map (fun q => q.Interval)).Nodup) (hw : w.constructorsSucceed) :
    ∃ (h : Handler) (ql1 : QuotaLimiter) (w1 : World) (layers : List Middleware)
        (ivs : List Int),
      QuotaLimiter.NewMiddleware quotas keyFunc next ql w = .ok (h, ql1, w1)
      ∧ h = Handler.stack layers next
      ∧ layers.map (fun m => (w1.heap.get? m.store).map (fun s => s.Interval)) = ivs.map some
      ∧ ivs.Perm (quotas.map (fun q => q.Interval))
      ∧ ivs.Pairwise (fun a b => a < b)
      ∧ (∀ a, ivs.head? = some a → ∀ q ∈ quotas, a ≤ q.Interval)
      ∧ (∀ b, ivs.getLast? = some b → ∀ q ∈ quotas, q.Interval ≤ b)
      ∧ (next.layers = [] →
          chainIntervals (QuotaLimiter.NewMiddleware quotas keyFunc next ql w) = ivs) := by
  have hperm := foldl_sinkLeft_perm pairLess (freshPairs keyFunc w.heap.length quotas) []
  rw [List.append_nil] at hperm
  have hasc := foldl_sinkLeft_ascending (freshPairs keyFunc w.heap.length quotas) []
    List.Pairwise.nil
  have hivs : ((freshPairs keyFunc w.heap.length quotas).foldl
      (fun left x => sinkLeft pairLess x left) []).map (fun p => p.interval)
      |>.Perm (quotas.map (fun q => q.Interval)) := by
    have := hperm.map (fun p => p.interval)
    rwa [freshPairs_intervals] at this
  have hlt : (((freshPairs keyFunc w.heap.length quotas).foldl
      (fun left x => sinkLeft pairLess x left) []).map (fun p => p.interval)).Pairwise
      (fun a b => a < b) := by
    have h1 : (((freshPairs keyFunc w.heap.length quotas).foldl
      (fun left x => sinkLeft pairLess x left) []).map (fun p => p.interval)).Pairwise
      (fun a b => a ≤ b) := List.pairwise_map.2 hasc
    have h2 := hivs.nodup_iff.2 hd
    exact (h1.and h2).imp (fun hab => lt_of_le_of_ne hab.1 hab.2)
  have hmap : (newLayers keyFunc w.heap.length quotas).map
      (fun m => ((w.heap ++ quotas.map (freshStore ql.backend)).get? m.store).map
        (fun s => s.Interval))
      = (((freshPairs keyFunc w.heap.length quotas).foldl
          (fun left x => sinkLeft pairLess x left) []).map (fun p => p.interval)).map some := by
    unfold newLayers
    rw [List.map_map, List.map_map]
    apply List.map_congr_left
    intro p hp
    have hp2 := hperm.mem_iff.1 hp
    have hf := freshPairs_correspond keyFunc ql.backend w.heap quotas []
    rw [List.append_nil] at hf
    obtain ⟨q, _, hq1, _, hq3⟩ := correspond_mem_right hf hp2
    simp only [Function.comp]
    rw [hq3, hq1]
    rfl
  refine ⟨_, _, _, _, _, NewMiddleware_ok quotas keyFunc next ql w hw, rfl, hmap, hivs, hlt,
    ?_, ?_, ?_⟩
  · intro a ha q hq
    have hmem : q.Interval ∈ ((freshPairs keyFunc w.heap.length quotas).foldl
      (fun left x => sinkLeft pairLess x left) []).map (fun p => p.interval) :=
      hivs.mem_iff.2 (List.mem_map.2 ⟨q, hq, rfl⟩)
    generalize ((freshPairs keyFunc w.heap.length quotas).foldl
      (fun left x => sinkLeft pairLess x left) []).map (fun p => p.interval) = l at hlt ha hmem
    cases l with
    | nil => cases hmem
    | cons x xs =>
      simp only [List.head?_cons, Option.some.injEq] at ha
      subst ha
      rcases List.mem_cons.1 hmem with hm | hm
      · exact le_of_eq hm.symm
      · exact le_of_lt ((List.pairwise_cons.1 hlt).1 _ hm)
  · intro b hb q hq
    have hmem : q.Interval ∈ ((freshPairs keyFunc w.heap.length quotas).foldl
      (fun left x => sinkLeft pairLess x left) []).map (fun p => p.interval) :=
      hivs.mem_iff.2 (List.mem_map.2 ⟨q, hq, rfl⟩)
    generalize ((freshPairs keyFunc w.heap.length quotas).foldl
      (fun left x => sinkLeft pairLess x left) []).map (fun p => p.interval) = l at hlt hb hmem
    rw [List.getLast?_eq_head?_reverse] at hb
    have hrev := List.pairwise_reverse.2 hlt
    have hmem2 : q.Interval ∈ l.reverse := List.mem_reverse.2 hmem
    generalize l.reverse = l2 at hb hrev hmem2
    cases l2 with
    | nil => cases hmem2
    | cons x xs =>
      simp only [List.head?_cons, Option.some.injEq] at hb
      subst hb
      rcases List.mem_cons.1 hmem2 with hm | hm
      · exact le_of_eq hm
      · exact le_of_lt ((List.pairwise_cons.1 hrev).1 _ hm)
  · intro hnext
    rw [NewMiddleware_ok quotas keyFunc next ql w hw]
    unfold chainIntervals
    simp only
    rw [layers_stack, hnext, List.append_nil]
    exact filterMap_of_map_some _ _ _ hmap

/-- C1 (witness): the amended statement at the quotas daily and burst. -/
theorem C1_layers_ascending_by_interval_witness :
    ([dailyQuota, burstQuota].map (fun q => q.Interval)).Nodup
    ∧ World.init.constructorsSucceed
    ∧ ∃ (h : Handler) (ql1 : QuotaLimiter) (w1 : World) (layers : List Middleware)
        (ivs : List Int),
      QuotaLimiter.NewMiddleware [dailyQuota, burstQuota] byAddr probe (NewQuotaLimiter [])
        World.init = .ok (h, ql1, w1)
      ∧ h = Handler.stack layers probe
      ∧ layers.map (fun m => (w1.heap.get? m.store).map (fun s => s.Interval)) = ivs.map some
      ∧ ivs.Perm ([dailyQuota, burstQuota].map (fun q => q.Interval))
      ∧ ivs.Pairwise (fun a b => a < b)
      ∧ (∀ a, ivs.head? = some a → ∀ q ∈ [dailyQuota, burstQuota], a ≤ q.Interval)
      ∧ (∀ b, ivs.getLast? = some b → ∀ q ∈ [dailyQuota, burstQuota], q.Interval ≤ b)
      ∧ (probe.layers = [] →
          chainIntervals (QuotaLimiter.NewMiddleware [dailyQuota, burstQuota] byAddr probe
            (NewQuotaLimiter []) World.init) = ivs) :=
  ⟨by decide, init_constructorsSucceed,
    C1_layers_ascending_by_interval [dailyQuota, burstQuota] byAddr probe (NewQuotaLimiter [])
      World.init (by decide) init_constructorsSucceed⟩

/-- C1 (counterexample): with the quotas daily (24h) and burst (1s), whose
intervals are distinct, the outermost layer of the built chain is the burst
quota (the shortest interval) and the innermost is the daily quota: the layers
are not in descending order of interval. -/
theorem C1_counterexample_shortest_outermost :
    ([dailyQuota, burstQuota].map (fun q => q.Interval)).Nodup
    ∧ chainIntervals (QuotaLimiter.NewMiddleware [dailyQuota, burstQuota] byAddr probe
        (NewQuotaLimiter []) World.init) = [burstQuota.Interval, dailyQuota.Interval]
    ∧ burstQuota.Interval < dailyQuota.Interval
    ∧ ¬ (chainIntervals (QuotaLimiter.NewMiddleware [dailyQuota, burstQuota] byAddr probe
        (NewQuotaLimiter []) World.init)).Pairwise (fun a b => a > b) := by
  decide

/-! ## C3: the protected handler runs exactly when every quota allows -/

/-- C3: when no store constructor fails, `NewMiddleware(quotas, keyFunc)(next)`
returns a chain of layers around `next`, the layers being the same for every
`next`. Every quota contributes exactly one layer (the layers are a permutation
of the per-quota middlewares, each with its own store), an empty quota list
gives `next` itself, and for a request whose key derivation succeeds the chain
hands the request to `next` if and only if the store of every layer allows it;
otherwise the outcome is that of the layer checks alone, which do not involve
`next`. -/
theorem C3_next_iff_all_quotas_allow (quotas : List Quota) (keyFunc : KeyFunc)
    (ql : QuotaLimiter) (w0 : World) (hw : w0.constructorsSucceed) :
    ∃ (pairs : List quotaMiddlewarePair) (layers : List Middleware) (ql1 : QuotaLimiter)
        (w1 : World),
      List.Forall₂
        (fun q p => p.interval = q.Interval
          ∧ p.middleware.keyFunc = keyWrapper keyFunc q.Name
          ∧ w1.heap.get? p.middleware.store = some (freshStore ql.backend q))
        quotas pairs
      ∧ layers.Perm (pairs.map (fun p => p.middleware))
      ∧ (layers.map (fun m => m.store)).Nodup
      ∧ ∀ next : Handler,
          QuotaLimiter.NewMiddleware quotas keyFunc next ql w0
            = .ok (Handler.stack layers next, ql1, w1)
          ∧ (quotas = [] → Handler.stack layers next = next)
          ∧ ∀ (r : Request) (k : String) (w : World), keyFunc r = (k, none) →
              (Handler.stack layers next).ServeHTTP r w =
                if layers.all (fun m => w.allows m.store (m.keyFunc r).1)
                then next.ServeHTTP r (runLayers layers r w).2
                else (runLayers layers r w).2 := by
  have hf := freshPairs_correspond keyFunc ql.backend w0.heap quotas []
  rw [List.append_nil] at hf
  refine ⟨freshPairs keyFunc w0.heap.length quotas, newLayers keyFunc w0.heap.length quotas,
    { ql with stores := ql.stores ++ List.range' w0.heap.length quotas.length },
    { w0 with heap := w0.heap ++ quotas.map (freshStore ql.backend) },
    hf, newLayers_perm _ _ _, newLayers_stores_nodup _ _ _, ?_⟩
  intro next
  refine ⟨NewMiddleware_ok quotas keyFunc next ql w0 hw, ?_, ?_⟩
  · intro hq
    subst hq
    rfl
  · intro r k w hk
    rw [serve_stack, runLayers_all _ _ _ (newLayers_stores_nodup _ _ _)]
    intro m hm
    have hm2 := (newLayers_perm keyFunc w0.heap.length quotas).mem_iff.1 hm
    obtain ⟨p, hp, rfl⟩ := List.mem_map.1 hm2
    obtain ⟨q, _, _, hq2, _⟩ := correspond_mem_right hf hp
    rw [hq2]
    simp [keyWrapper, hk]

/-- C3 (witness): the statement in the initial world, for the quotas burst and
daily. -/
theorem C3_next_iff_all_quotas_allow_witness :
    World.init.constructorsSucceed
    ∧ ∃ (pairs : List quotaMiddlewarePair) (layers : List Middleware) (ql1 : QuotaLimiter)
        (w1 : World),
      List.Forall₂
        (fun q p => p.interval = q.Interval
          ∧ p.middleware.keyFunc = keyWrapper byAddr q.Name
          ∧ w1.heap.get? p.middleware.store
              = some (freshStore (NewQuotaLimiter []).backend q))
        [burstQuota, dailyQuota] pairs
      ∧ layers.Perm (pairs.map (fun p => p.middleware))
      ∧ (layers.map (fun m => m.store)).Nodup
      ∧ ∀ next : Handler,
          QuotaLimiter.NewMiddleware [burstQuota, dailyQuota] byAddr next (NewQuotaLimiter [])
            World.init = .ok (Handler.stack layers next, ql1, w1)
          ∧ ([burstQuota, dailyQuota] = [] → Handler.stack layers next = next)
          ∧ ∀ (r : Request) (k : String) (w : World), byAddr r = (k, none) →
              (Handler.stack layers next).ServeHTTP r w =
                if layers.all (fun m => w.allows m.store (m.keyFunc r).1)
                then next.ServeHTTP r (runLayers layers r w).2
                else (runLayers layers r w).2 :=
  ⟨init_constructorsSucceed,
    C3_next_iff_all_quotas_allow [burstQuota, dailyQuota] byAddr (NewQuotaLimiter []) World.init
      init_constructorsSucceed⟩

/-! ## C4: the key each layer derives -/

/-- C4: when no store constructor fails and `keyFunc(r)` returns key `k` without
error, the pair the first loop builds for each quota `q` (the one holding the
store created from `q.Tokens` and `q.Interval`) has a key function that returns
exactly `q.Name ++ k` and no error at `r`; these pairs, one per quota, are the
layers of the handler `NewMiddleware` returns. -/
theorem C4_layer_key_is_name_then_key (quotas : List Quota) (keyFunc : KeyFunc)
    (next : Handler) (ql : QuotaLimiter) (w : World) (r : Request) (k : String)
    (hw : w.constructorsSucceed) (hk : keyFunc r = (k, none)) :
    ∃ (pairs : List quotaMiddlewarePair) (layers : List Middleware) (ql1 : QuotaLimiter)
        (w1 : World),
      buildPairs keyFunc quotas [] ql w = .ok (pairs, ql1, w1)
      ∧ QuotaLimiter.NewMiddleware quotas keyFunc next ql w
          = .ok (Handler.stack layers next, ql1, w1)
      ∧ layers.Perm (pairs.map (fun p => p.middleware))
      ∧ List.Forall₂
          (fun q p => p.middleware.keyFunc r = (q.Name ++ k, none)
            ∧ p.interval = q.Interval
            ∧ (w1.heap.get? p.middleware.store).map (fun s => (s.Tokens, s.Interval))
                = some (q.Tokens, q.Interval))
          quotas pairs := by
  have hf := freshPairs_correspond keyFunc ql.backend w.heap quotas []
  rw [List.append_nil] at hf
  refine ⟨freshPairs keyFunc w.heap.length quotas, newLayers keyFunc w.heap.length quotas,
    { ql with stores := ql.stores ++ List.range' w.heap.length quotas.length },
    { w with heap := w.heap ++ quotas.map (freshStore ql.backend) },
    ?_, NewMiddleware_ok quotas keyFunc next ql w hw, newLayers_perm _ _ _, ?_⟩
  · simpa using buildPairs_ok keyFunc quotas [] ql w hw
  · refine hf.imp ?_
    intro q p hqp
    obtain ⟨h1, h2, h3⟩ := hqp
    refine ⟨?_, h1, ?_⟩
    · rw [h2]
      simp [keyWrapper, hk]
    · rw [h3]
      rfl

/-- C4 (witness): the statement for the quotas burst and daily and a request
from client "10.0.0.7". -/
theorem C4_layer_key_is_name_then_key_witness :
    World.init.constructorsSucceed
    ∧ byAddr (reqFrom "10.0.0.7") = ("10.0.0.7", none)
    ∧ ∃ (pairs : List quotaMiddlewarePair) (layers : List Middleware) (ql1 : QuotaLimiter)
        (w1 : World),
      buildPairs byAddr [burstQuota, dailyQuota] [] (NewQuotaLimiter []) World.init
        = .ok (pairs, ql1, w1)
      ∧ QuotaLimiter.NewMiddleware [burstQuota, dailyQuota] byAddr probe (NewQuotaLimiter [])
          World.init = .ok (Handler.stack layers probe, ql1, w1)
      ∧ layers.Perm (pairs.map (fun p => p.middleware))
      ∧ List.Forall₂
          (fun q p => p.middleware.keyFunc (reqFrom "10.0.0.7") = (q.Name ++ "10.0.0.7", none)
            ∧ p.interval = q.Interval
            ∧ (w1.heap.get? p.middleware.store).map (fun s => (s.Tokens, s.Interval))
                = some (q.Tokens, q.Interval))
          [burstQuota, dailyQuota] pairs :=
  ⟨init_constructorsSucceed, rfl,
    C4_layer_key_is_name_then_key [burstQuota, dailyQuota] byAddr probe (NewQuotaLimiter [])
      World.init (reqFrom "10.0.0.7") "10.0.0.7" init_constructorsSucceed rfl⟩

/-! ## C2: which quota shields which -/

theorem heap_lookup_append (heap l : List Store) (i : Nat) :
    (heap ++ l).get? (heap.length + i) = l.get? i := by
  rw [List.get?_eq_getElem?, List.get?_eq_getElem?,
    List.getElem?_append_right (Nat.le_add_right _ _)]
  simp

theorem serve_denied (m : Middleware) (next : Handler) (r : Request) (w : World) (key : String)
    (hk : m.keyFunc r = (key, none)) (hd : w.allows m.store key = false) :
    ∃ ev : Event, (∀ s k, ev ≠ Event.take s k)
      ∧ (Handler.limited m next).ServeHTTP r w =
        { (w.Take m.store key).2 with trace := w.trace ++ [Event.take m.store key, ev] } := by
  rw [serve_limited, hk]
  simp only
  unfold World.allows at hd
  cases herr : (w.Take m.store key).1.err with
  | some e =>
    refine ⟨Event.storeError m.store e, (fun _ _ hc => by cases hc), ?_⟩
    simp [take_trace]
  | none =>
    rw [herr] at hd
    simp only [Option.isNone_none, Bool.true_and] at hd
    rw [hd]
    refine ⟨Event.rateLimited m.store (w.Take m.store key).1.limit
      (w.Take m.store key).1.remaining (w.Take m.store key).1.resetAt,
      (fun _ _ hc => by cases hc), ?_⟩
    simp [take_trace]

theorem newLayers_two_longer_first (keyFunc : KeyFunc) (base : Nat) (Q1 Q2 : Quota)
    (hlt : Q1.Interval > Q2.Interval) :
    newLayers keyFunc base [Q1, Q2]
      = [⟨base + 1, keyWrapper keyFunc Q2.Name⟩, ⟨base, keyWrapper keyFunc Q1.Name⟩] := by
  have h : ¬ Q1.Interval < Q2.Interval := not_lt.2 (le_of_lt hlt)
  simp [newLayers, freshPairs, sinkLeft, pairLess, h]

theorem newLayers_two_shorter_first (keyFunc : KeyFunc) (base : Nat) (Q1 Q2 : Quota)
    (hlt : Q1.Interval > Q2.Interval) :
    newLayers keyFunc base [Q2, Q1]
      = [⟨base, keyWrapper keyFunc Q2.Name⟩, ⟨base + 1, keyWrapper keyFunc Q1.Name⟩] := by
  have h : Q2.Interval < Q1.Interval := hlt
  simp [newLayers, freshPairs, sinkLeft, pairLess, h]

/-- C2 (amended): for two quotas `Q1`, `Q2` with `Q1.Interval > Q2.Interval`
composed by `NewMiddleware` (in either list order), the layer of `Q2` is the
outer one and the layer of `Q1` the inner one. For every request whose key
derivation succeeds and that the store of `Q2` (the shorter interval) does not
allow, the store of `Q1` is not asked to `Take`: its state, and so its remaining
count for every key, is the same after the request as before it. -/
theorem C2_denied_by_shorter_spares_longer (Q1 Q2 : Quota) (quotas : List Quota)
    (keyFunc : KeyFunc) (next : Handler) (ql : QuotaLimiter) (w0 : World)
    (hlt : Q1.Interval > Q2.Interval) (hq : quotas = [Q1, Q2] ∨ quotas = [Q2, Q1])
    (hw : w0.constructorsSucceed) :
    ∃ (m1 m2 : Middleware) (ql1 : QuotaLimiter) (w1 : World),
      QuotaLimiter.NewMiddleware quotas keyFunc next ql w0
        = .ok (Handler.limited m2 (Handler.limited m1 next), ql1, w1)
      ∧ m1.keyFunc = keyWrapper keyFunc Q1.Name
      ∧ w1.heap.get? m1.store = some (freshStore ql.backend Q1)
      ∧ m2.keyFunc = keyWrapper keyFunc Q2.Name
      ∧ w1.heap.get? m2.store = some (freshStore ql.backend Q2)
      ∧ m1.store ≠ m2.store
      ∧ ∀ (r : Request) (k : String) (w : World), keyFunc r = (k, none) →
          w.allows m2.store (Q2.Name ++ k) = false →
          ((Handler.limited m2 (Handler.limited m1 next)).ServeHTTP r w).heap.get? m1.store
              = w.heap.get? m1.store
          ∧ (∀ key, ((Handler.limited m2 (Handler.limited m1 next)).ServeHTTP r w).Peek
              m1.store key = w.Peek m1.store key)
          ∧ ∃ evs : List Event,
              ((Handler.limited m2 (Handler.limited m1 next)).ServeHTTP r w).trace = w.trace ++ evs
              ∧ ∀ key, Event.take m1.store key ∉ evs := by
  have main : ∀ (m1 m2 : Middleware), m2.keyFunc = keyWrapper keyFunc Q2.Name →
      m1.store ≠ m2.store →
      ∀ (r : Request) (k : String) (w : World), keyFunc r = (k, none) →
          w.allows m2.store (Q2.Name ++ k) = false →
          ((Handler.limited m2 (Handler.limited m1 next)).ServeHTTP r w).heap.get? m1.store
              = w.heap.get? m1.store
          ∧ (∀ key, ((Handler.limited m2 (Handler.limited m1 next)).ServeHTTP r w).Peek
              m1.store key = w.Peek m1.store key)
          ∧ ∃ evs : List Event,
              ((Handler.limited m2 (Handler.limited m1 next)).ServeHTTP r w).trace = w.trace ++ evs
              ∧ ∀ key, Event.take m1.store key ∉ evs := by
    intro m1 m2 hk2 hne r k w hk hd
    have hkey : m2.keyFunc r = (Q2.Name ++ k, none) := by
      rw [hk2]
      simp [keyWrapper, hk]
    obtain ⟨ev, hev, hs⟩ := serve_denied m2 (Handler.limited m1 next) r w _ hkey hd
    rw [hs]
    have hheap := take_heap_other w m2.store m1.store (Q2.Name ++ k) (Ne.symm hne)
    refine ⟨hheap, ?_, _, rfl, ?_⟩
    · intro key
      show Option.map _ ((w.Take m2.store (Q2.Name ++ k)).2.heap.get? m1.store) = _
      rw [hheap, take_now]
      rfl
    · intro key hmem
      simp only [List.mem_cons, List.mem_singleton, Event.take.injEq, List.not_mem_nil,
        or_false] at hmem
      rcases hmem with hmem | hmem
      · exact hne hmem.1
      · exact hev _ _ hmem.symm
  rcases hq with hq | hq
  · subst hq
    refine ⟨⟨w0.heap.length, keyWrapper keyFunc Q1.Name⟩,
      ⟨w0.heap.length + 1, keyWrapper keyFunc Q2.Name⟩,
      { ql with stores := ql.stores ++ List.range' w0.heap.length 2 },
      { w0 with heap := w0.heap ++ [Q1, Q2].map (freshStore ql.backend) },
      ?_, rfl, ?_, rfl, ?_, ?_, ?_⟩
    · rw [NewMiddleware_ok _ _ _ _ _ hw, newLayers_two_longer_first _ _ _ _ hlt]
      rfl
    · exact (heap_lookup_append _ _ 0).trans rfl
    · exact (heap_lookup_append _ _ 1).trans rfl
    · simp
    · exact main _ _ rfl (by simp)
  · subst hq
    refine ⟨⟨w0.heap.length + 1, keyWrapper keyFunc Q1.Name⟩,
      ⟨w0.heap.length, keyWrapper keyFunc Q2.Name⟩,
      { ql with stores := ql.stores ++ List.range' w0.heap.length 2 },
      { w0 with heap := w0.heap ++ [Q2, Q1].map (freshStore ql.backend) },
      ?_, rfl, ?_, rfl, ?_, ?_, ?_⟩
    · rw [NewMiddleware_ok _ _ _ _ _ hw, newLayers_two_shorter_first _ _ _ _ hlt]
      rfl
    · exact (heap_lookup_append _ _ 1).trans rfl
    · exact (heap_lookup_append _ _ 0).trans rfl
    · simp
    · exact main _ _ rfl (by simp)

/-- C2 (witness): the amended statement for the quotas hourly and burst. -/
theorem C2_denied_by_shorter_spares_longer_witness :
    hourlyQuota.Interval > burstQuota.Interval
    ∧ ([hourlyQuota, burstQuota] = [hourlyQuota, burstQuota]
        ∨ [hourlyQuota, burstQuota] = [burstQuota, hourlyQuota])
    ∧ World.init.constructorsSucceed
    ∧ ∃ (m1 m2 : Middleware) (ql1 : QuotaLimiter) (w1 : World),
      QuotaLimiter.NewMiddleware [hourlyQuota, burstQuota] byAddr probe (NewQuotaLimiter [])
        World.init = .ok (Handler.limited m2 (Handler.limited m1 probe), ql1, w1)
      ∧ m1.keyFunc = keyWrapper byAddr hourlyQuota.Name
      ∧ w1.heap.get? m1.store = some (freshStore (NewQuotaLimiter []).backend hourlyQuota)
      ∧ m2.keyFunc = keyWrapper byAddr burstQuota.Name
      ∧ w1.heap.get? m2.store = some (freshStore (NewQuotaLimiter []).backend burstQuota)
      ∧ m1.store ≠ m2.store
      ∧ ∀ (r : Request) (k : String) (w : World), byAddr r = (k, none) →
          w.allows m2.store (burstQuota.Name ++ k) = false →
          ((Handler.limited m2 (Handler.limited m1 probe)).ServeHTTP r w).heap.get? m1.store
              = w.heap.get? m1.store
          ∧ (∀ key, ((Handler.limited m2 (Handler.limited m1 probe)).ServeHTTP r w).Peek
              m1.store key = w.Peek m1.store key)
          ∧ ∃ evs : List Event,
              ((Handler.limited m2 (Handler.limited m1 probe)).ServeHTTP r w).trace
                = w.trace ++ evs
              ∧ ∀ key, Event.take m1.store key ∉ evs :=
  ⟨by decide, Or.inl rfl, init_constructorsSucceed,
    C2_denied_by_shorter_spares_longer hourlyQuota burstQuota [hourlyQuota, burstQuota] byAddr
      probe (NewQuotaLimiter []) World.init (by decide) (Or.inl rfl) init_constructorsSucceed⟩

/-- C2 (counterexample): `Q1` = hourly (one token per hour) and `Q2` = burst
(five per second), so `Q1.Interval > Q2.Interval`; store 0 is that of `Q1`,
store 1 that of `Q2`. After one served request of client "A", the store of `Q1`
denies the second request of "A"; yet during that request the store of `Q2` is
asked to `Take` and its remaining count for the client drops from 4 to 3. -/
theorem C2_counterexample_inner_denial_consumes_outer :
    hourlyQuota.Interval > burstQuota.Interval
    ∧ ∃ (h : Handler) (ql1 : QuotaLimiter) (w1 : World),
      QuotaLimiter.NewMiddleware [hourlyQuota, burstQuota] byAddr probe (NewQuotaLimiter [])
        World.init = .ok (h, ql1, w1)
      ∧ w1.heap = [freshStore Backend.memory hourlyQuota, freshStore Backend.memory burstQuota]
      ∧ (h.ServeHTTP (reqFrom "A") w1).trace
          = [Event.take 1 "burstA", Event.take 0 "hourlyA", Event.served (reqFrom "A")]
      ∧ (h.ServeHTTP (reqFrom "A") w1).allows 0 "hourlyA" = false
      ∧ (h.ServeHTTP (reqFrom "A") w1).Peek 1 "burstA" = some 4
      ∧ (h.ServeHTTP (reqFrom "A") (h.ServeHTTP (reqFrom "A") w1)).Peek 1 "burstA" = some 3
      ∧ (h.ServeHTTP (reqFrom "A") (h.ServeHTTP (reqFrom "A") w1)).trace
          = (h.ServeHTTP (reqFrom "A") w1).trace
            ++ [Event.take 1 "burstA", Event.take 0 "hourlyA",
                Event.rateLimited 0 1 0 (3600 * Second)] := by
  refine ⟨by decide, _, _, _, rfl, ?_⟩
  decide

/-! ## C5, C6: namespaced keys -/

/-- C5: for two quota names that differ and a request whose raw key is `K`, the
key wrappers of the two quotas return `nameA ++ K` and `nameB ++ K`, and these
are different strings. -/
theorem C5_same_raw_key_distinct_names (keyFunc : KeyFunc) (r : Request) (K : String)
    (nameA nameB : String) (hk : keyFunc r = (K, none)) (hne : nameA ≠ nameB) :
    keyWrapper keyFunc nameA r = (nameA ++ K, none)
    ∧ keyWrapper keyFunc nameB r = (nameB ++ K, none)
    ∧ (keyWrapper keyFunc nameA r).1 ≠ (keyWrapper keyFunc nameB r).1 := by
  have hA : keyWrapper keyFunc nameA r = (nameA ++ K, none) := by simp [keyWrapper, hk]
  have hB : keyWrapper keyFunc nameB r = (nameB ++ K, none) := by simp [keyWrapper, hk]
  refine ⟨hA, hB, ?_⟩
  rw [hA, hB]
  intro he
  apply hne
  have hd := congrArg String.data he
  simp only [String.data_append] at hd
  exact String.ext (List.append_cancel_right hd)

/-- C5 (witness): the names "burst" and "daily" with the raw key "10.0.0.7". -/
theorem C5_same_raw_key_distinct_names_witness :
    byAddr (reqFrom "10.0.0.7") = ("10.0.0.7", none)
    ∧ "burst" ≠ "daily"
    ∧ keyWrapper byAddr "burst" (reqFrom "10.0.0.7") = ("burst" ++ "10.0.0.7", none)
    ∧ keyWrapper byAddr "daily" (reqFrom "10.0.0.7") = ("daily" ++ "10.0.0.7", none)
    ∧ (keyWrapper byAddr "burst" (reqFrom "10.0.0.7")).1
        ≠ (keyWrapper byAddr "daily" (reqFrom "10.0.0.7")).1 :=
  ⟨rfl, by decide,
    C5_same_raw_key_distinct_names byAddr (reqFrom "10.0.0.7") "10.0.0.7" "burst" "daily" rfl
      (by decide)⟩

/-- C6 (amended): for two quota names neither of which is a prefix of the other,
and any two raw keys `K1`, `K2` (equal or not), the namespaced key of the first
quota for `K1` differs from the namespaced key of the second quota for `K2`. -/
theorem C6_prefix_free_names_never_collide (keyFunc : KeyFunc) (r1 r2 : Request)
    (K1 K2 nameA nameB : String) (hk1 : keyFunc r1 = (K1, none)) (hk2 : keyFunc r2 = (K2, none))
    (hAB : ¬ nameA.data <+: nameB.data) (hBA : ¬ nameB.data <+: nameA.data) :
    keyWrapper keyFunc nameA r1 = (nameA ++ K1, none)
    ∧ keyWrapper keyFunc nameB r2 = (nameB ++ K2, none)
    ∧ (keyWrapper keyFunc nameA r1).1 ≠ (keyWrapper keyFunc nameB r2).1 := by
  have hA : keyWrapper keyFunc nameA r1 = (nameA ++ K1, none) := by simp [keyWrapper, hk1]
  have hB : keyWrapper keyFunc nameB r2 = (nameB ++ K2, none) := by simp [keyWrapper, hk2]
  refine ⟨hA, hB, ?_⟩
  rw [hA, hB]
  intro he
  have hd := congrArg String.data he
  simp only [String.data_append] at hd
  have ha : nameA.data <+: nameA.data ++ K1.data := List.prefix_append _ _
  have hb : nameB.data <+: nameA.data ++ K1.data := hd ▸ List.prefix_append _ _
  rcases List.prefix_or_prefix_of_prefix ha hb with h | h
  · exact hAB h
  · exact hBA h

/-- C6 (witness): the names "burst" and "daily" with the raw keys "10.0.0.7" and
"10.0.0.8". -/
theorem C6_prefix_free_names_never_collide_witness :
    byAddr (reqFrom "10.0.0.7") = ("10.0.0.7", none)
    ∧ byAddr (reqFrom "10.0.0.8") = ("10.0.0.8", none)
    ∧ ¬ "burst".data <+: "daily".data
    ∧ ¬ "daily".data <+: "burst".data
    ∧ keyWrapper byAddr "burst" (reqFrom "10.0.0.7") = ("burst" ++ "10.0.0.7", none)
    ∧ keyWrapper byAddr "daily" (reqFrom "10.0.0.8") = ("daily" ++ "10.0.0.8", none)
    ∧ (keyWrapper byAddr "burst" (reqFrom "10.0.0.7")).1
        ≠ (keyWrapper byAddr "daily" (reqFrom "10.0.0.8")).1 :=
  ⟨rfl, rfl, by decide, by decide,
    C6_prefix_free_names_never_collide byAddr (reqFrom "10.0.0.7") (reqFrom "10.0.0.8")
      "10.0.0.7" "10.0.0.8" "burst" "daily" rfl rfl (by decide) (by decide)⟩

/-- C6 (counterexample): the quota names "a" and "ab" differ, yet quota "a" with
raw key "bc" and quota "ab" with raw key "c" get the same namespaced key
"abc". -/
theorem C6_counterexample_prefix_names_collide :
    "a" ≠ "ab"
    ∧ byAddr (reqFrom "bc") = ("bc", none)
    ∧ byAddr (reqFrom "c") = ("c", none)
    ∧ keyWrapper byAddr "a" (reqFrom "bc") = ("abc", none)
    ∧ keyWrapper byAddr "ab" (reqFrom "c") = ("abc", none)
    ∧ (keyWrapper byAddr "a" (reqFrom "bc")).1 = (keyWrapper byAddr "ab" (reqFrom "c")).1 := by
  decide

/-! ## C7: key-derivation errors -/

/-- C7 (amended): for a non-empty quota list and a request `r` for which
`keyFunc(r)` returns an error `e`, the key function of every quota's layer
returns the empty key together with `e`, and the composed handler only records
the key error: no store is asked to `Take`, no counter changes, and the
protected handler is not invoked (the outcome is the same for every `next`). -/
theorem C7_key_error_aborts_before_stores (quotas : List Quota) (keyFunc : KeyFunc)
    (ql : QuotaLimiter) (w0 : World) (r : Request) (k0 : String) (e : Error)
    (hne : quotas ≠ []) (hw : w0.constructorsSucceed) (hk : keyFunc r = (k0, some e)) :
    ∃ (pairs : List quotaMiddlewarePair) (layers : List Middleware) (ql1 : QuotaLimiter)
        (w1 : World),
      buildPairs keyFunc quotas [] ql w0 = .ok (pairs, ql1, w1)
      ∧ pairs.length = quotas.length
      ∧ (∀ p ∈ pairs, p.middleware.keyFunc r = ("", some e))
      ∧ layers.Perm (pairs.map (fun p => p.middleware))
      ∧ ∀ next : Handler,
          QuotaLimiter.NewMiddleware quotas keyFunc next ql w0
            = .ok (Handler.stack layers next, ql1, w1)
          ∧ ∀ w : World, (Handler.stack layers next).ServeHTTP r w
              = { w with trace := w.trace ++ [Event.keyError e] } := by
  have hf := freshPairs_correspond keyFunc ql.backend w0.heap quotas []
  have hkey : ∀ p ∈ freshPairs keyFunc w0.heap.length quotas,
      p.middleware.keyFunc r = ("", some e) := by
    intro p hp
    obtain ⟨q, _, _, hq2, _⟩ := correspond_mem_right hf hp
    rw [hq2]
    simp [keyWrapper, hk]
  refine ⟨freshPairs keyFunc w0.heap.length quotas, newLayers keyFunc w0.heap.length quotas,
    { ql with stores := ql.stores ++ List.range' w0.heap.length quotas.length },
    { w0 with heap := w0.heap ++ quotas.map (freshStore ql.backend) },
    ?_, freshPairs_length _ _ _, hkey, newLayers_perm _ _ _, ?_⟩
  · simpa using buildPairs_ok keyFunc quotas [] ql w0 hw
  · intro next
    refine ⟨NewMiddleware_ok quotas keyFunc next ql w0 hw, ?_⟩
    intro w
    have hperm := newLayers_perm keyFunc w0.heap.length quotas
    cases hl : newLayers keyFunc w0.heap.length quotas with
    | nil =>
      exfalso
      have hlen := hperm.length_eq
      rw [hl, List.length_map, freshPairs_length] at hlen
      exact hne (List.length_eq_zero.1 hlen.symm)
    | cons m ms =>
      have hm : m ∈ newLayers keyFunc w0.heap.length quotas := by
        rw [hl]
        exact List.mem_cons_self _ _
      obtain ⟨p, hp, rfl⟩ := List.mem_map.1 (hperm.mem_iff.1 hm)
      show (Handler.limited p.middleware (Handler.stack ms next)).ServeHTTP r w = _
      rw [serve_limited, hkey p hp]

/-- C7 (witness): the amended statement for the quotas burst and daily and a
key function that fails on every request. -/
theorem C7_key_error_aborts_before_stores_witness :
    [burstQuota, dailyQuota] ≠ []
    ∧ World.init.constructorsSucceed
    ∧ noKey (reqFrom "10.0.0.7") = ("", some "no key")
    ∧ ∃ (pairs : List quotaMiddlewarePair) (layers : List Middleware) (ql1 : QuotaLimiter)
        (w1 : World),
      buildPairs noKey [burstQuota, dailyQuota] [] (NewQuotaLimiter []) World.init
        = .ok (pairs, ql1, w1)
      ∧ pairs.length = [burstQuota, dailyQuota].length
      ∧ (∀ p ∈ pairs, p.middleware.keyFunc (reqFrom "10.0.0.7") = ("", some "no key"))
      ∧ layers.Perm (pairs.map (fun p => p.middleware))
      ∧ ∀ next : Handler,
          QuotaLimiter.NewMiddleware [burstQuota, dailyQuota] noKey next (NewQuotaLimiter [])
            World.init = .ok (Handler.stack layers next, ql1, w1)
          ∧ ∀ w : World, (Handler.stack layers next).ServeHTTP (reqFrom "10.0.0.7") w
              = { w with trace := w.trace ++ [Event.keyError "no key"] } :=
  ⟨by decide, init_constructorsSucceed, rfl,
    C7_key_error_aborts_before_stores [burstQuota, dailyQuota] noKey (NewQuotaLimiter [])
      World.init (reqFrom "10.0.0.7") "" "no key" (by decide) init_constructorsSucceed rfl⟩

/-- C7 (counterexample): with an empty quota list the composed handler is the
protected handler itself, so a request whose key derivation fails is served by
it. -/
theorem C7_counterexample_no_quotas_serves :
    noKey (reqFrom "10.0.0.7") = ("", some "no key")
    ∧ ∃ (h : Handler) (ql1 : QuotaLimiter) (w1 : World),
      QuotaLimiter.NewMiddleware [] noKey probe (NewQuotaLimiter []) World.init
        = .ok (h, ql1, w1)
      ∧ (h.ServeHTTP (reqFrom "10.0.0.7") w1).trace = [Event.served (reqFrom "10.0.0.7")] := by
  refine ⟨rfl, _, _, _, rfl, ?_⟩
  decide

/-! ## C8: stores owned by the limiter -/

theorem NewQuotaLimiter_fold (connStrs : List String) (ql : QuotaLimiter) :
    ((connStrs.map WithRedisConnStr).foldl (fun ql opt => opt ql) ql).stores = ql.stores := by
  induction connStrs generalizing ql with
  | nil => rfl
  | cons c cs ih =>
    simp only [List.map_cons, List.foldl_cons]
    rw [ih]
    rfl

theorem NewQuotaLimiter_stores (connStrs : List String) :
    (NewQuotaLimiter (connStrs.map WithRedisConnStr)).stores = [] :=
  NewQuotaLimiter_fold connStrs ⟨[], none⟩

theorem fresh_range_lookup (heap l : List Store) :
    (List.range' heap.length l.length).map (fun i => (heap ++ l).get? i) = l.map some := by
  induction l generalizing heap with
  | nil => rfl
  | cons a l ih =>
    simp only [List.length_cons, List.range'_succ, List.map_cons]
    congr 1
    · exact (heap_lookup_append heap (a :: l) 0).trans rfl
    · have := ih (heap ++ [a])
      simpa using this

/-- What repeated application of the middleware leaves behind: the handlers and
their layer lists, and the stores appended to the limiter and to the heap. -/
theorem applyEach_ok (quotas : List Quota) (keyFunc : KeyFunc) (nexts : List Handler)
    (ql : QuotaLimiter) (w : World) (hw : w.constructorsSucceed) :
    ∃ (hs : List Handler) (layerss : List (List Middleware)) (ql1 : QuotaLimiter) (w1 : World),
      applyEach (QuotaLimiter.NewMiddleware quotas keyFunc) nexts ql w = .ok (hs, ql1, w1)
      ∧ ql1.stores = ql.stores ++ List.range' w.heap.length (nexts.length * quotas.length)
      ∧ w1.heap = w.heap
          ++ (List.replicate nexts.length (quotas.map (freshStore ql.backend))).flatten
      ∧ List.Forall₂ (fun h ln => h = Handler.stack ln.1 ln.2) hs (layerss.zip nexts)
      ∧ layerss.length = nexts.length
      ∧ (layerss.flatten.map (fun m => m.store)).Perm
          (List.range' w.heap.length (nexts.length * quotas.length)) := by
  induction nexts generalizing ql w with
  | nil =>
    exact ⟨[], [], ql, w, rfl, by simp, by simp, List.Forall₂.nil, rfl, by simp⟩
  | cons next rest ih =>
    have hw1 : World.constructorsSucceed
        { w with heap := w.heap ++ quotas.map (freshStore ql.backend) } := hw
    obtain ⟨hs, layerss, ql1, w1, hrun, hst, hheap, hfor, hlen, hperm⟩ :=
      ih { ql with stores := ql.stores ++ List.range' w.heap.length quotas.length }
        { w with heap := w.heap ++ quotas.map (freshStore ql.backend) } hw1
    refine ⟨Handler.stack (newLayers keyFunc w.heap.length quotas) next :: hs,
      newLayers keyFunc w.heap.length quotas :: layerss, ql1, w1, ?_, ?_, ?_, ?_, ?_, ?_⟩
    · rw [applyEach, NewMiddleware_ok quotas keyFunc next ql w hw]
      simp only
      rw [hrun]
    · rw [hst]
      simp only [List.length_append, List.length_map, List.append_assoc, List.length_cons]
      rw [Nat.succ_mul, List.range'_append_1]
    · rw [hheap]
      simp [List.replicate_succ, QuotaLimiter.backend]
    · exact List.Forall₂.cons rfl hfor
    · simp [hlen]
    · simp only [List.flatten_cons, List.map_append, List.length_cons]
      rw [Nat.succ_mul, ← List.range'_append_1]
      refine List.Perm.append ?_ ?_
      · have hp := (newLayers_perm keyFunc w.heap.length quotas).map (fun m => m.store)
        rw [List.map_map] at hp
        have he : (fun m => m.store) ∘ (fun p : quotaMiddlewarePair => p.middleware)
            = fun p => p.middleware.store := rfl
        rw [he, freshPairs_stores] at hp
        exact hp
      · simpa using hperm

/-- C8 (amended): for a limiter from `NewQuotaLimiter` and the function returned
by `NewMiddleware(quotas, keyFunc)` applied to `k` handlers in turn, every
application creates one fresh store per quota: afterwards the limiter owns
`k * len(quotas)` stores, all distinct; within each application the i-th store
is created with the i-th quota's `Tokens` and `Interval`; and every store is used
by exactly one layer. In particular one application leaves exactly one store
per quota. -/
theorem C8_one_fresh_store_per_quota_per_application (connStrs : List String)
    (quotas : List Quota) (keyFunc : KeyFunc) (nexts : List Handler) (w : World)
    (hw : w.constructorsSucceed) :
    ∃ (hs : List Handler) (layerss : List (List Middleware)) (ql1 : QuotaLimiter) (w1 : World),
      applyEach (QuotaLimiter.NewMiddleware quotas keyFunc) nexts
        (NewQuotaLimiter (connStrs.map WithRedisConnStr)) w = .ok (hs, ql1, w1)
      ∧ ql1.stores.length = nexts.length * quotas.length
      ∧ (nexts.length = 1 → ql1.stores.length = quotas.length)
      ∧ ql1.stores.Nodup
      ∧ ql1.stores.map (fun s => (w1.heap.get? s).map (fun st => (st.Tokens, st.Interval)))
          = (List.replicate nexts.length
              (quotas.map (fun q => some (q.Tokens, q.Interval)))).flatten
      ∧ List.Forall₂ (fun h ln => h = Handler.stack ln.1 ln.2) hs (layerss.zip nexts)
      ∧ layerss.length = nexts.length
      ∧ (layerss.flatten.map (fun m => m.store)).Perm ql1.stores := by
  obtain ⟨hs, layerss, ql1, w1, hrun, hst, hheap, hfor, hlen, hperm⟩ :=
    applyEach_ok quotas keyFunc nexts (NewQuotaLimiter (connStrs.map WithRedisConnStr)) w hw
  rw [NewQuotaLimiter_stores, List.nil_append] at hst
  have hflat : ((List.replicate nexts.length (quotas.map (freshStore
      (NewQuotaLimiter (connStrs.map WithRedisConnStr)).backend))).flatten).length
      = nexts.length * quotas.length := by
    simp
  refine ⟨hs, layerss, ql1, w1, hrun, ?_, ?_, ?_, ?_, hfor, hlen, ?_⟩
  · rw [hst, List.length_range']
  · intro h1
    rw [hst, List.length_range', h1, Nat.one_mul]
  · rw [hst]
    exact List.nodup_range' _ _
  · rw [hst, hheap, ← hflat]
    have := fresh_range_lookup w.heap ((List.replicate nexts.length (quotas.map (freshStore
      (NewQuotaLimiter (connStrs.map WithRedisConnStr)).backend))).flatten)
    have h2 := congrArg (List.map (Option.map (fun st : Store => (st.Tokens, st.Interval)))) this
    rw [List.map_map, List.map_map] at h2
    refine h2.trans ?_
    generalize nexts.length = k
    induction k with
    | zero => rfl
    | succ k ihk =>
      simp only [List.replicate_succ, List.flatten_cons, List.map_append]
      rw [ihk]
      simp [freshStore, Function.comp]
  · rw [hst]
    exact hperm

/-- C8 (witness): the amended statement for two applications of the middleware
built from the quotas burst and daily. -/
theorem C8_one_fresh_store_per_quota_per_application_witness :
    World.init.constructorsSucceed
    ∧ ∃ (hs : List Handler) (layerss : List (List Middleware)) (ql1 : QuotaLimiter)
        (w1 : World),
      applyEach (QuotaLimiter.NewMiddleware [burstQuota, dailyQuota] byAddr) [probe, probe]
        (NewQuotaLimiter (["redis:6379"].map WithRedisConnStr)) World.init = .ok (hs, ql1, w1)
      ∧ ql1.stores.length = [probe, probe].length * [burstQuota, dailyQuota].length
      ∧ ([probe, probe].length = 1 → ql1.stores.length = [burstQuota, dailyQuota].length)
      ∧ ql1.stores.Nodup
      ∧ ql1.stores.map (fun s => (w1.heap.get? s).map (fun st => (st.Tokens, st.Interval)))
          = (List.replicate [probe, probe].length
              ([burstQuota, dailyQuota].map (fun q => some (q.Tokens, q.Interval)))).flatten
      ∧ List.Forall₂ (fun h ln => h = Handler.stack ln.1 ln.2) hs (layerss.zip [probe, probe])
      ∧ layerss.length = [probe, probe].length
      ∧ (layerss.flatten.map (fun m => m.store)).Perm ql1.stores :=
  ⟨init_constructorsSucceed,
    C8_one_fresh_store_per_quota_per_application ["redis:6379"] [burstQuota, dailyQuota] byAddr
      [probe, probe] World.init init_constructorsSucceed⟩

/-- C8 (counterexample): applying the function returned by
`NewMiddleware([burst], keyFunc)` to two handlers (k = 2) leaves the limiter
with two stores for the single quota, both created from its `Tokens` and
`Interval`: `len(ql.stores)` is 2, not `len(quotas)` = 1. -/
theorem C8_counterexample_two_applications_two_stores :
    ∃ (hs : List Handler) (ql1 : QuotaLimiter) (w1 : World),
      applyEach (QuotaLimiter.NewMiddleware [burstQuota] byAddr) [probe, probe]
        (NewQuotaLimiter []) World.init = .ok (hs, ql1, w1)
      ∧ ql1.stores = [0, 1]
      ∧ ql1.stores.length ≠ [burstQuota].length
      ∧ w1.heap = [freshStore Backend.memory burstQuota, freshStore Backend.memory burstQuota]
      ∧ hs.map (fun h => h.layers.map (fun m => m.store)) = [[0], [1]] := by
  refine ⟨_, _, _, rfl, ?_⟩
  decide

/-! ## C9, C10: `Cleanup` -/

theorem close_trace (w : World) (a : Nat) :
    (w.Close a).2.trace = w.trace ++ [Event.close a] := rfl

theorem close_heap_lookup (w : World) (a i : Nat) :
    (w.Close a).2.heap.get? i =
      if i = a then (w.heap.get? i).map (fun st => { st with closed := true })
      else w.heap.get? i := by
  unfold World.Close
  simp only [List.get?_eq_getElem?]
  cases h : w.heap[a]? with
  | none =>
    by_cases hia : i = a
    · subst hia
      simp [h]
    · simp [hia]
  | some st =>
    by_cases hia : i = a
    · subst hia
      have hlt : i < w.heap.length := (List.getElem?_eq_some_iff.1 h).1
      simp [h, List.getElem?_set, hlt]
    · simp [hia, List.getElem?_set, Ne.symm hia]

theorem cleanup_trace (stores : List Nat) (w : World) :
    (stores.foldl (fun w store => (w.Close store).2) w).trace
      = w.trace ++ stores.map Event.close := by
  induction stores generalizing w with
  | nil => simp
  | cons a l ih =>
    simp only [List.foldl_cons, List.map_cons]
    rw [ih, close_trace, List.append_assoc]
    rfl

theorem cleanup_heap (stores : List Nat) (w : World) (i : Nat) :
    (stores.foldl (fun w store => (w.Close store).2) w).heap.get? i =
      if i ∈ stores then (w.heap.get? i).map (fun st => { st with closed := true })
      else w.heap.get? i := by
  induction stores generalizing w with
  | nil => simp
  | cons a l ih =>
    simp only [List.foldl_cons]
    rw [ih, close_heap_lookup]
    by_cases hia : i = a
    · subst hia
      by_cases hil : i ∈ l
      · simp only [hil, if_true, List.mem_cons, or_true, Option.map_map]
        cases w.heap.get? i <;> rfl
      · simp [hil]
    · simp [hia]

theorem cleanup_frame (stores : List Nat) (w v : World) (hh : w.heap = v.heap)
    (ht : w.trace = v.trace) :
    (stores.foldl (fun w store => (w.Close store).2) w).heap
        = (stores.foldl (fun w store => (w.Close store).2) v).heap
    ∧ (stores.foldl (fun w store => (w.Close store).2) w).trace
        = (stores.foldl (fun w store => (w.Close store).2) v).trace := by
  induction stores generalizing w v with
  | nil => exact ⟨hh, ht⟩
  | cons a l ih =>
    simp only [List.foldl_cons]
    apply ih
    · show (match w.heap.get? a with
        | some s => w.heap.set a { s with closed := true }
        | none => w.heap) = (match v.heap.get? a with
        | some s => v.heap.set a { s with closed := true }
        | none => v.heap)
      rw [hh]
    · show w.trace ++ [Event.close a] = v.trace ++ [Event.close a]
      rw [ht]

/-- C9: for every limiter state and every world (so whatever errors the `Close`
calls return), the calls `Cleanup` makes are exactly one `Close` per element of
`ql.stores`, in list order, none skipped after a failing one; and every store of
the list ends up closed. -/
theorem C9_cleanup_closes_every_store (ql : QuotaLimiter) (w : World) :
    (ql.Cleanup w).2.trace = w.trace ++ ql.stores.map Event.close
    ∧ (∀ s ∈ ql.stores, ∀ st, w.heap.get? s = some st →
        (ql.Cleanup w).2.heap.get? s = some { st with closed := true })
    ∧ (∀ s, s ∉ ql.stores → (ql.Cleanup w).2.heap.get? s = w.heap.get? s) := by
  refine ⟨cleanup_trace ql.stores w, ?_, ?_⟩
  · intro s hs st hst
    show (ql.stores.foldl (fun w store => (w.Close store).2) w).heap.get? s = _
    rw [cleanup_heap, if_pos hs, hst]
    rfl
  · intro s hs
    show (ql.stores.foldl (fun w store => (w.Close store).2) w).heap.get? s = _
    rw [cleanup_heap, if_neg hs]

/-- C10 (amended): `Cleanup` returns no value and drops the errors of the `Close`
calls: its return value, the stores it leaves and the calls it makes are the
same whatever errors the `Close` calls return, so its caller learns nothing
about them. -/
theorem C10_cleanup_drops_close_errors (ql : QuotaLimiter) (w : World)
    (closeErr1 closeErr2 : Nat → Option Error) :
    (ql.Cleanup { w with closeErr := closeErr1 }).1
        = (ql.Cleanup { w with closeErr := closeErr2 }).1
    ∧ (ql.Cleanup { w with closeErr := closeErr1 }).2.heap
        = (ql.Cleanup { w with closeErr := closeErr2 }).2.heap
    ∧ (ql.Cleanup { w with closeErr := closeErr1 }).2.trace
        = (ql.Cleanup { w with closeErr := closeErr2 }).2.trace
    ∧ (ql.Cleanup { w with closeErr := closeErr1 }).2.trace
        = w.trace ++ ql.stores.map Event.close := by
  have hf := cleanup_frame ql.stores { w with closeErr := closeErr1 }
    { w with closeErr := closeErr2 } rfl rfl
  exact ⟨rfl, hf.1, hf.2, cleanup_trace ql.stores _⟩

/-- C10 (counterexample): a limiter with one store (built by `NewMiddleware` for
the quota burst) whose `Close` returns an error. `Cleanup` calls that `Close`,
and its result is the same unit value as when `Close` succeeds: no reading of
the result reports an error in the first case and none in the second. -/
theorem C10_counterexample_close_error_not_reported :
    ∃ (h : Handler) (ql1 : QuotaLimiter) (w1 : World),
      QuotaLimiter.NewMiddleware [burstQuota] byAddr probe (NewQuotaLimiter [])
        World.closeFails = .ok (h, ql1, w1)
      ∧ ql1.stores = [0]
      ∧ (w1.Close 0).1 = some "close failed"
      ∧ (ql1.Cleanup w1).2.trace = [Event.close 0]
      ∧ ({ w1 with closeErr := fun _ => none }.Close 0).1 = none
      ∧ ¬ ∃ reports : Unit → Bool,
          reports (ql1.Cleanup w1).1 = true
          ∧ reports (ql1.Cleanup { w1 with closeErr := fun _ => none }).1 = false := by
  refine ⟨_, _, _, rfl, rfl, rfl, rfl, rfl, ?_⟩
  rintro ⟨reports, h1, h2⟩
  exact Bool.noConfusion (h1.symm.trans h2)

end httplimit
